import Mathlib

/-!
Verification of the ass-processor-lib batch pipeline.

Shallow embedding of the repository's core logic:
* `src/utils/glob.ts` — `getUniqueFileByGlob`
* `src/utils/extractors.ts` (concatenated into `src/processor/temp-dir-cache.ts`
  in this snapshot) — `isArchiveFile`, `extractTarGzInVfs`, `extractWith7z`
* `src/processor/temp-dir-cache.ts` — `filteredCopy`, `TempDirCache.getOrPrepare`,
  `TempDirCache.cleanup`
* `src/utils/temp-dir.ts` — `withTempDir`
* `src/processor/batch-processor.ts` — `processOne`, the `process` loop,
  `writeLogSummary`
* the standalone 7z CLI wrapper — its `FS.chmod` override

Effectful TypeScript is modelled by explicit state passing; filesystem
listings, detected file types and per-job outcomes are passed in as data.
-/

namespace AssProc

/-! ## String containment helper -/

/-- `strContains hay needle` holds when `needle` occurs contiguously inside
`hay` (substring containment, stated on the underlying character lists). -/
def strContains (hay needle : String) : Prop :=
  needle.data <:+: hay.data

instance strContainsDecidable (hay needle : String) : Decidable (strContains hay needle) :=
  inferInstanceAs (Decidable (needle.data <:+: hay.data))

theorem strContains_append_left (a b needle : String) (h : strContains b needle) :
    strContains (a ++ b) needle := by
  unfold strContains at h ⊢
  rw [String.data_append]
  exact List.IsInfix.trans h ( List.IsSuffix.isInfix ( List.suffix_append a.data b.data))

theorem strContains_append_right (a b : String) : strContains (a ++ b) b := by
  unfold strContains
  rw [String.data_append]
  exact List.IsSuffix.isInfix ( List.suffix_append a.data b.data)

theorem strContains_trans (a b c : String) (h1 : strContains a b) (h2 : strContains b c) :
    strContains a c :=
  List.IsInfix.trans h2 h1

/-! ## Glob resolver (`src/utils/glob.ts`) -/

/-- Model of `@std/path` `basename` (an external collaborator) for forward-slash
paths: the final path component. -/
def baseName (p : String) : String :=
  String.mk ((p.data.splitOn '/').getLastD p.data)

/-- Model of JavaScript `Array.prototype.join('\n')`: the elements separated by
newlines. -/
def joinNl : List String → String
  | [] => ""
  | [x] => x
  | x :: y :: ys => x ++ "\n" ++ joinNl (y :: ys)

theorem strContains_joinNl (l : List String) (s : String) (h : s ∈ l) :
    strContains (joinNl l) s := by
  induction l with
  | nil => cases h
  | cons x xs ih =>
    cases xs with
    | nil =>
      have hs : s = x := by simpa using h
      subst hs
      unfold strContains
      exact List.infix_refl _
    | cons y ys =>
      rcases List.mem_cons.mp h with hs | hs
      · subst hs
        show strContains (s ++ "\n" ++ joinNl (y :: ys)) s
        unfold strContains
        rw [String.data_append, String.data_append, List.append_assoc]
        exact List.IsPrefix.isInfix ( List.prefix_append _ _)
      · show strContains (x ++ "\n" ++ joinNl (y :: ys)) s
        exact strContains_append_left _ _ _ (ih hs)

/-- Embedding of `getUniqueFileByGlob` (glob.ts lines 37–57). The glob match
result (an ordered list of absolute paths, as produced by `getFilesByGlob`) is
passed in as data. -/
def getUniqueFileByGlob (dir glob : String) (files : List String) : Except String String :=
  if files.length = 0 then
    Except.error ("glob \"" ++ glob ++ "\" 在目录 \"" ++ dir ++ "\" 中没有匹配到任何文件")
  else if files.length > 1 then
    Except.error ("glob \"" ++ glob ++ "\" 在目录 \"" ++ dir ++ "\" 中匹配到多个文件:\n"
      ++ joinNl (files.map (fun f => "  - " ++ baseName f)))
  else
    Except.ok (files.headD "")

/-- C3: Exactly-one-match contract: `getUniqueFileByGlob` fails on 0 matches,
returns the single matching path on exactly 1 match, and fails on 2 or more
matches with an error message that names (contains the basename of) every
matching file. -/
theorem getUniqueFileByGlob_contract (dir glob : String) (files : List String) :
    (files = [] → ∃ msg, getUniqueFileByGlob dir glob files = Except.error msg)
    ∧ (∀ f, files = [f] → getUniqueFileByGlob dir glob files = Except.ok f)
    ∧ (2 ≤ files.length →
        ∃ msg, getUniqueFileByGlob dir glob files = Except.error msg
          ∧ ∀ f ∈ files, strContains msg (baseName f)) := by
  refine ⟨?_, ?_, ?_⟩
  · rintro rfl
    exact ⟨_, rfl⟩
  · rintro f rfl
    rfl
  · intro hlen
    match files, hlen with
    | f1 :: f2 :: rest, _ =>
      refine ⟨"glob \"" ++ glob ++ "\" 在目录 \"" ++ dir ++ "\" 中匹配到多个文件:\n"
        ++ joinNl ((f1 :: f2 :: rest).map (fun f => "  - " ++ baseName f)),
        by simp [getUniqueFileByGlob], ?_⟩
      intro f hf
      apply strContains_append_left
      apply strContains_trans _ ("  - " ++ baseName f) _
      · exact strContains_joinNl _ _ (List.mem_map_of_mem _ hf)
      · exact strContains_append_right _ _

/-- Witness for C3: concrete 0-, 1- and 2-match directories. -/
theorem getUniqueFileByGlob_contract_witness :
    (∃ msg, getUniqueFileByGlob "/d" "*.ass" ([] : List String) = Except.error msg)
    ∧ getUniqueFileByGlob "/d" "*.ass" ["/d/a.ass"] = Except.ok "/d/a.ass"
    ∧ (∃ msg, getUniqueFileByGlob "/d" "*.ass" ["/d/a.ass", "/d/b.ass"] = Except.error msg
        ∧ ∀ f ∈ ["/d/a.ass", "/d/b.ass"], strContains msg (baseName f)) :=
  ⟨(getUniqueFileByGlob_contract "/d" "*.ass" []).1 rfl,
   (getUniqueFileByGlob_contract "/d" "*.ass" ["/d/a.ass"]).2.1 "/d/a.ass" rfl,
   (getUniqueFileByGlob_contract "/d" "*.ass" ["/d/a.ass", "/d/b.ass"]).2.2 (by decide)⟩

/-! ## tar.gz two-stage extraction (`extractTarGzInVfs`, temp-dir-cache.ts lines 276–362) -/

/-- Embedding of the entry-selection loop (lines 314–321): iterate over the
VFS temp-directory listing and take the FIRST name that is neither `"."` nor
`".."`, stopping there (the source `break`s on the first hit). -/
def findTarEntry : List String → Option String
  | [] => none
  | n :: rest => if n ≠ "." ∧ n ≠ ".." then some n else findTarEntry rest

/-- Embedding of `extractTarGzInVfs`. The exit codes of the two `7z x`
invocations and the listing of the memory-backed VFS temp directory after
stage 1 are passed in as data; on success the returned string is the name of
the intermediate tar entry that gets extracted into the real destination. -/
def extractTarGzInVfs (result1 : Int) (tmpDirContents : List String) (result2 : Int) :
    Except String String :=
  if result1 ≠ 0 then
    Except.error ("tar.gz 第一步解压失败 (gzip)，返回码: " ++ toString result1)
  else
    match findTarEntry tmpDirContents with
    | none => Except.error "tar.gz 解压后未找到 tar 文件"
    | some tarFileName =>
      if result2 ≠ 0 then
        Except.error ("tar.gz 第二步解压失败 (tar)，返回码: " ++ toString result2)
      else
        Except.ok tarFileName

/-- C4 counterexample: with two intermediate entries (`a.tar`, `b.tar`) in the
memory-backed area and both stages succeeding, the extraction does NOT fail —
it silently extracts the first entry. The claim demands a descriptive error
whenever more than one entry appears, so the claim is false of the code. -/
theorem extractTarGzInVfs_two_entries_accepted :
    extractTarGzInVfs 0 [".", "..", "a.tar", "b.tar"] 0 = Except.ok "a.tar" := by
  rfl

/-- C4 (amended): the first stage must yield at least one non-dot entry in the
memory-backed area; with zero entries the extraction fails with a descriptive
error; otherwise the FIRST non-dot entry in listing order is the one extracted
into the real destination (extra entries are ignored, not rejected), and a
non-zero exit code of either stage fails with a stage-tagged error. -/
theorem extractTarGzInVfs_first_entry (r1 r2 : Int) (contents : List String) :
    (findTarEntry contents = none → r1 = 0 →
        extractTarGzInVfs r1 contents r2 = Except.error "tar.gz 解压后未找到 tar 文件")
    ∧ (∀ t, findTarEntry contents = some t → r1 = 0 → r2 = 0 →
        extractTarGzInVfs r1 contents r2 = Except.ok t)
    ∧ (∀ n rest, n ≠ "." → n ≠ ".." → findTarEntry (n :: rest) = some n)
    ∧ (r1 ≠ 0 →
        extractTarGzInVfs r1 contents r2
          = Except.error ("tar.gz 第一步解压失败 (gzip)，返回码: " ++ toString r1)) := by
  refine ⟨?_, ?_, ?_, ?_⟩
  · intro hnone hr1
    subst hr1
    simp [extractTarGzInVfs, hnone]
  · intro t ht hr1 hr2
    subst hr1; subst hr2
    simp [extractTarGzInVfs, ht]
  · intro n rest h1 h2
    simp [findTarEntry, h1, h2]
  · intro hr1
    simp [extractTarGzInVfs, hr1]

/-- Witness for C4 (amended): a singleton intermediate listing extracts that
entry; an empty listing fails. -/
theorem extractTarGzInVfs_first_entry_witness :
    extractTarGzInVfs 0 [".", "..", "sub.tar"] 0 = Except.ok "sub.tar"
    ∧ extractTarGzInVfs 0 [".", ".."] 0 = Except.error "tar.gz 解压后未找到 tar 文件" :=
  ⟨(extractTarGzInVfs_first_entry 0 0 [".", "..", "sub.tar"]).2.1 "sub.tar" (by rfl) rfl rfl,
   (extractTarGzInVfs_first_entry 0 0 [".", ".."]).1 (by rfl) rfl⟩

/-! ## 7z-wasm chmod behaviour (standalone CLI wrapper vs `extractWith7z`) -/

/-- A 7z-wasm module instance, abstracted to the one configuration bit the
claims are about: whether `FS.chmod` has been replaced by the zero-mode-ignoring
override. -/
structure SevenZipInstance where
  chmodIgnoresZeroMode : Bool
deriving DecidableEq

/-- The instance built by the standalone 7z CLI wrapper: after construction it
reassigns `FS.chmod` so that a zero/empty mode request returns without calling
the original chmod (wrapper source lines 49–60). -/
def wrapperSevenZip : SevenZipInstance :=
  { chmodIgnoresZeroMode := true }

/-- The instance used by `extractWith7z` (temp-dir-cache.ts line 225) and by
`extractTarGzInVfs` (line 281): a fresh `SevenZip()` module on which no
`FS.chmod` override is ever installed. -/
def extractWith7zSevenZip : SevenZipInstance :=
  { chmodIgnoresZeroMode := false }

/-- Effective mode of an entry after a chmod request for `mode` arrives while
the entry currently has mode `prior`: the raw Emscripten `FS.chmod` applies the
requested mode; the wrapper's override drops the request when `mode = 0`. -/
def effectiveChmod (inst : SevenZipInstance) (prior mode : Nat) : Nat :=
  if inst.chmodIgnoresZeroMode ∧ mode = 0 then prior else mode

/-- C5: evaluating the code at the failing input. During a tar-family
extraction 7z-wasm issues `chmod(subdir, 0)`; under the engine's own instance
(`extractWith7z`, no override installed) the subdirectory's effective mode
becomes 0 — not traversable — while under the standalone wrapper's patched
instance the prior mode 0o755 is kept. -/
theorem extractWith7z_chmod_zero_applies :
    effectiveChmod extractWith7zSevenZip 493 0 = 0
    ∧ effectiveChmod wrapperSevenZip 493 0 = 493
    ∧ ¬ 0 < effectiveChmod extractWith7zSevenZip 493 0 := by
  refine ⟨rfl, rfl, by simp [effectiveChmod, extractWith7zSevenZip]⟩

/-! ## Format sniffing and the temp-dir cache (`temp-dir-cache.ts`) -/

/-- Embedding of `isArchiveFile` (extractors lines 198–203): the detected file
type (content-based, `file-type`'s `ext` field, `none` when detection fails or
yields nothing) is in the supported-archive list. -/
def isArchiveFile (detectedExt : Option String) : Bool :=
  match detectedExt with
  | none => false
  | some e => ["rar", "zip", "7z", "tar", "tar.gz"].contains e

/-- State of a `TempDirCache` instance: the key → prepared-directory map, the
lazily created root temp dir, and the created-subdirectory counter. -/
structure CacheState where
  cache : List (String × String)
  rootTempDir : Option String
  subDirCount : Nat
deriving DecidableEq

/-- The side effect `getOrPrepare` performs to materialize a fresh prepared
directory (lines 96–107): extract the archive, filtered-copy the directory, or
fully copy it. -/
inductive PrepAction where
  | extractArchive
  | filteredCopyExts (allowedExtensions : List String)
  | fullCopy
deriving DecidableEq

/-- Embedding of `TempDirCache.getOrPrepare` (lines 75–111). `absolutePath` is
the canonical path (`Deno.realPath`), `isFile`/`detectedExt` the `stat` and
content-sniffing results for the source as it is at call time, `freshRoot` and
`freshSub` the names the temp-dir/ulid generators would produce. Returns the
state after the call, the prepared directory path, and the side effect
performed (`none` on a cache hit). -/
def getOrPrepare (st : CacheState) (absolutePath : String) (isFile : Bool)
    (detectedExt : Option String) (allowedExtensions : List String)
    (freshRoot freshSub : String) : CacheState × String × Option PrepAction :=
  let isArchive := isFile && isArchiveFile detectedExt
  let mode := if isArchive then "extract" else "copy"
  let cacheKey := mode ++ ":" ++ absolutePath
  match st.cache.lookup cacheKey with
  | some d => (st, d, none)
  | none =>
    let root := st.rootTempDir.getD freshRoot
    let subDir := root ++ "/" ++ freshSub
    let action :=
      if isArchive then PrepAction.extractArchive
      else if allowedExtensions.length ≠ 0 then PrepAction.filteredCopyExts allowedExtensions
      else PrepAction.fullCopy
    (⟨st.cache ++ [(cacheKey, subDir)], some root, st.subDirCount + 1⟩, subDir, some action)

theorem lookup_append_singleton (l : List (String × String)) (k v : String)
    (h : l.lookup k = none) : (l ++ [(k, v)]).lookup k = some v := by
  induction l with
  | nil => simp [List.lookup]
  | cons a l ih =>
    rw [List.cons_append]
    cases hk : (k == a.1) with
    | true =>
      exfalso
      rw [show a = (a.1, a.2) from rfl, List.lookup_cons] at h
      simp [hk] at h
    | false =>
      rw [show a = (a.1, a.2) from rfl, List.lookup_cons] at h ⊢
      simp only [hk] at h ⊢
      exact ih h

/-- C1: Cache idempotence. Two `getOrPrepare` calls with the same canonical
path and the same resulting mode (the detected content — and hence `isFile` /
`detectedExt` — may have changed in between, as long as archive-ness agrees)
return the identical directory path, the second call performs no side effect
and leaves the cache state unchanged, and when the key was initially absent
the first call performs the extraction/copy side effect (exactly once in
total). -/
theorem cache_idempotence (st : CacheState) (p : String) (isFile1 isFile2 : Bool)
    (t1 t2 : Option String) (exts1 exts2 : List String) (r1 s1 r2 s2 : String)
    (hmode : (isFile1 && isArchiveFile t1) = (isFile2 && isArchiveFile t2)) :
    (getOrPrepare (getOrPrepare st p isFile1 t1 exts1 r1 s1).1 p isFile2 t2 exts2 r2 s2).2.1
      = (getOrPrepare st p isFile1 t1 exts1 r1 s1).2.1
    ∧ (getOrPrepare (getOrPrepare st p isFile1 t1 exts1 r1 s1).1 p isFile2 t2 exts2 r2 s2).2.2
      = none
    ∧ (getOrPrepare (getOrPrepare st p isFile1 t1 exts1 r1 s1).1 p isFile2 t2 exts2 r2 s2).1
      = (getOrPrepare st p isFile1 t1 exts1 r1 s1).1
    ∧ (st.cache.lookup ((if isFile1 && isArchiveFile t1 then "extract" else "copy") ++ ":" ++ p)
          = none →
        (getOrPrepare st p isFile1 t1 exts1 r1 s1).2.2.isSome = true) := by
  have hb : (isFile2 && isArchiveFile t2) = (isFile1 && isArchiveFile t1) := hmode.symm
  unfold getOrPrepare
  simp only [hb]
  generalize (isFile1 && isArchiveFile t1) = c
  cases hl : st.cache.lookup ((if c then "extract" else "copy") ++ ":" ++ p) with
  | some d => simp [hl]
  | none =>
    have h2 := lookup_append_singleton st.cache ((if c then "extract" else "copy") ++ ":" ++ p)
      ((st.rootTempDir.getD r1) ++ "/" ++ s1) hl
    simp [hl, h2]

/-- Witness for C1: an empty cache, a zip archive whose content is swapped for
a rar archive between the two calls (same canonical path, still extract mode):
both calls yield the same prepared directory, the second is side-effect-free,
and the first call did perform the extraction. -/
theorem cache_idempotence_witness :
    ((true && isArchiveFile (some "zip")) = (true && isArchiveFile (some "rar")))
    ∧ ((CacheState.mk [] none 0).cache.lookup
          ((if true && isArchiveFile (some "zip") then "extract" else "copy") ++ ":"
            ++ "/data/fonts.zip") = none)
    ∧ (getOrPrepare (getOrPrepare ⟨[], none, 0⟩ "/data/fonts.zip" true (some "zip") [] "R" "S1").1
          "/data/fonts.zip" true (some "rar") [] "R2" "S2").2.1
        = (getOrPrepare ⟨[], none, 0⟩ "/data/fonts.zip" true (some "zip") [] "R" "S1").2.1
    ∧ (getOrPrepare (getOrPrepare ⟨[], none, 0⟩ "/data/fonts.zip" true (some "zip") [] "R" "S1").1
          "/data/fonts.zip" true (some "rar") [] "R2" "S2").2.2
        = none
    ∧ (getOrPrepare ⟨[], none, 0⟩ "/data/fonts.zip" true (some "zip") [] "R" "S1").2.2.isSome
        = true := by
  have h := cache_idempotence ⟨[], none, 0⟩ "/data/fonts.zip" true true (some "zip") (some "rar")
    [] [] "R" "S1" "R2" "S2" (by decide)
  exact ⟨by decide, by decide, h.1, h.2.1, h.2.2.2 (by decide)⟩

/-! ## Path extension handling -/

/-- Index (0-based) of the last `'.'` in the character list, if any. -/
def lastDotIdxAux : List Char → Nat → Option Nat → Option Nat
  | [], _, acc => acc
  | c :: rest, i, acc => lastDotIdxAux rest (i + 1) (if c = '.' then some i else acc)

/-- Model of `@std/path` `extname` (an external collaborator), applied to a
file basename: everything from the last `'.'` to the end, except that a name
with no dot, or whose only leading character is the dot, has no extension.
(The special names `"."`/`".."` never occur here: inputs are matched files.) -/
def extname (b : String) : String :=
  match lastDotIdxAux b.data 0 none with
  | none => ""
  | some 0 => ""
  | some i => String.mk (b.data.drop i)

/-- Model of the JavaScript expression `s.slice(0, -n)` for a natural `n`: the
first `s.length - n` characters — except that for `n = 0` the end index is
`-0 === 0`, so the result is the empty string, not `s`. -/
def jsSliceZeroToNeg (s : String) (n : Nat) : String :=
  if n = 0 then "" else String.mk (s.data.take (s.data.length - n))

/-! ## Output commit (`BatchProcessor.processOne`, part_000 lines 312–344,
and `withTempDir`, temp-dir.ts lines 485–500) -/

/-- Embedding of the output-filename derivation (lines 312–315):
`videoBasename.slice(0, -extname(videoBasename).length) + item.outputSuffix`. -/
def outputFilename (videoBasename outputSuffix : String) : String :=
  jsSliceZeroToNeg videoBasename (extname videoBasename).length ++ outputSuffix

/-- Modelled from the spec: the output filename as the claim words it — the
video file's base name with its extension stripped, then the job's suffix
appended. Used only to compare against `outputFilename`. -/
def specOutputFilename (videoBasename outputSuffix : String) : String :=
  String.mk (videoBasename.data.take (videoBasename.data.length - (extname videoBasename).length))
    ++ outputSuffix

/-- Model of `@std/path` `join` for the output path (line 316). -/
def joinPath (a b : String) : String :=
  a ++ "/" ++ b

/-- The final filesystem effect of a committed job output. -/
inductive CopyOp where
  | copyOverwrite (src dst : String)
deriving DecidableEq

/-- Embedding of the artifact-cardinality check and commit (lines 329–343):
`processedFiles` is the `*.assfonts.ass` glob result in the job-scoped temp
output directory; exactly one artifact is copied (with overwrite) to
`outputFile`. -/
def commitOutput (processedFiles : List String) (outputFile : String) :
    Except String CopyOp :=
  if processedFiles.length = 0 then
    Except.error "未找到处理后的字幕文件"
  else if processedFiles.length > 1 then
    Except.error ("处理后产生了多个字幕文件: " ++ toString processedFiles.length)
  else
    Except.ok (CopyOp.copyOverwrite (processedFiles.headD "") outputFile)

/-- Embedding of `withTempDir` (temp-dir.ts lines 485–500): the body's result
is returned unchanged and the temporary directory is removed in the `finally`
on both the success and the failure path (the `Bool` records the removal). -/
def withTempDir (body : Except String CopyOp) : Except String CopyOp × Bool :=
  match body with
  | Except.ok a => (Except.ok a, true)
  | Except.error e => (Except.error e, true)

/-- C8 counterexample: for a video file named `movie` (no extension) and
suffix `.sc.ass`, the code's output filename is just `.sc.ass` — the base name
is dropped entirely (JavaScript `slice(0, -0)` is `slice(0, 0)`) — whereas the
claim's derivation (base name with extension stripped, suffix appended) gives
`movie.sc.ass`. -/
theorem outputFilename_extensionless_video :
    outputFilename "movie" ".sc.ass" = ".sc.ass"
    ∧ specOutputFilename "movie" ".sc.ass" = "movie.sc.ass"
    ∧ outputFilename "movie" ".sc.ass" ≠ specOutputFilename "movie" ".sc.ass" := by
  refine ⟨by decide, by decide, by decide⟩

/-- C8 (amended): after the tool runs into the fresh job-scoped temp output
directory, zero matching artifacts fail the job, two or more fail the job, and
exactly one is copied with overwrite to the final output path under the job's
output directory; the output name is the video base name with its extension
stripped plus the suffix whenever the video has a non-empty extension, and is
the suffix alone when it has none; the temp directory is discarded on every
path. -/
theorem output_commit_contract (processedFiles : List String)
    (outputDir videoBasename outputSuffix : String) :
    (processedFiles = [] →
        (withTempDir (commitOutput processedFiles
            (joinPath outputDir (outputFilename videoBasename outputSuffix)))).1
          = Except.error "未找到处理后的字幕文件")
    ∧ (2 ≤ processedFiles.length →
        ∃ msg, (withTempDir (commitOutput processedFiles
            (joinPath outputDir (outputFilename videoBasename outputSuffix)))).1
          = Except.error msg)
    ∧ (∀ f, processedFiles = [f] →
        (withTempDir (commitOutput processedFiles
            (joinPath outputDir (outputFilename videoBasename outputSuffix)))).1
          = Except.ok (CopyOp.copyOverwrite f
              (joinPath outputDir (outputFilename videoBasename outputSuffix))))
    ∧ (extname videoBasename ≠ "" →
        outputFilename videoBasename outputSuffix
          = specOutputFilename videoBasename outputSuffix)
    ∧ (extname videoBasename = "" →
        outputFilename videoBasename outputSuffix = outputSuffix)
    ∧ (∀ body, (withTempDir body).2 = true) := by
  refine ⟨?_, ?_, ?_, ?_, ?_, ?_⟩
  · rintro rfl
    rfl
  · intro hlen
    match processedFiles, hlen with
    | f1 :: f2 :: rest, _ =>
      exact ⟨"处理后产生了多个字幕文件: " ++ toString (f1 :: f2 :: rest).length,
        by simp [commitOutput, withTempDir]⟩
  · rintro f rfl
    rfl
  · intro hne
    have hlen : (extname videoBasename).length ≠ 0 := by
      intro h0
      apply hne
      have : (extname videoBasename).data = [] := List.length_eq_zero.mp h0
      exact String.ext this
    unfold outputFilename specOutputFilename jsSliceZeroToNeg
    rw [if_neg hlen]
  · intro he
    unfold outputFilename jsSliceZeroToNeg
    rw [he]
    rfl
  · intro body
    cases body <;> rfl

/-- Witness for C8 (amended): one artifact for video `ep01.mkv` with suffix
`.sc.ass` is committed to `vids/ep01.sc.ass`, and the temp directory is
removed. -/
theorem output_commit_contract_witness :
    (withTempDir (commitOutput ["t/ep01.assfonts.ass"]
        (joinPath "vids" (outputFilename "ep01.mkv" ".sc.ass")))).1
      = Except.ok (CopyOp.copyOverwrite "t/ep01.assfonts.ass"
          (joinPath "vids" (outputFilename "ep01.mkv" ".sc.ass")))
    ∧ extname "ep01.mkv" ≠ ""
    ∧ outputFilename "ep01.mkv" ".sc.ass" = "ep01.sc.ass"
    ∧ (withTempDir (Except.error "ASS 字幕处理失败")).2 = true :=
  ⟨(output_commit_contract ["t/ep01.assfonts.ass"] "vids" "ep01.mkv" ".sc.ass").2.2.1
      "t/ep01.assfonts.ass" rfl,
   by decide, by decide,
   (output_commit_contract [] "vids" "ep01.mkv" ".sc.ass").2.2.2.2.2
      (Except.error "ASS 字幕处理失败")⟩

/-! ## Extension-filtered copy (`filteredCopy`, temp-dir-cache.ts lines 11–27) -/

/-- Model of `String.prototype.toLowerCase` (character-wise lowercasing). -/
def strToLower (s : String) : String :=
  String.mk (s.data.map Char.toLower)

/-- Embedding of `filteredCopy`: the source directory is given as the `walk`
listing of its files (relative path paired with content, directories excluded);
the result is the listing of the destination after the copy. An entry is copied
exactly when the lowercased extension of its name (`extname(entry.name)`,
`entry.name` being the basename) is in the lowercased allow-list, and it keeps
its relative path. -/
def filteredCopy (files : List (String × String)) (allowedExtensions : List String) :
    List (String × String) :=
  let lowerExts := allowedExtensions.map strToLower
  files.filter (fun entry => lowerExts.contains (strToLower (extname (baseName entry.1))))

/-- C9: Extension-filtered copy. Preparing a plain directory with a non-empty
allow-list chooses the filtered copy (not a full copy), and the prepared
directory's listing contains exactly the source files whose extension,
compared case-insensitively, is in the allow-list — each at its source
relative path, and nothing else. -/
theorem extension_filtered_copy (st : CacheState) (p : String)
    (files : List (String × String)) (exts : List String) (freshRoot freshSub : String)
    (hne : exts ≠ []) (hnocache : st.cache.lookup ("copy:" ++ p) = none) :
    (getOrPrepare st p false none exts freshRoot freshSub).2.2
      = some (PrepAction.filteredCopyExts exts)
    ∧ ∀ f, f ∈ filteredCopy files exts ↔
        f ∈ files ∧ strToLower (extname (baseName f.1)) ∈ exts.map strToLower := by
  constructor
  · unfold getOrPrepare
    simp only [isArchiveFile, Bool.false_and]
    simp [hnocache, hne]
  · intro f
    simp [filteredCopy, List.mem_filter, List.elem_iff]

/-- Witness for C9: the spec's own example — a directory with `font.ttf`,
`readme.txt`, `notes.md` prepared with allow-list `['.ttf']` yields only
`font.ttf`, at its source position. -/
theorem extension_filtered_copy_witness :
    ([".ttf"] : List String) ≠ []
    ∧ (CacheState.mk [] none 0).cache.lookup ("copy:" ++ "/fonts") = none
    ∧ (getOrPrepare ⟨[], none, 0⟩ "/fonts" false none [".ttf"] "R" "S").2.2
        = some (PrepAction.filteredCopyExts [".ttf"])
    ∧ (("font.ttf", "F") ∈
          filteredCopy [("font.ttf", "F"), ("readme.txt", "R"), ("notes.md", "N")] [".ttf"]
        ↔ ("font.ttf", "F") ∈ [("font.ttf", "F"), ("readme.txt", "R"), ("notes.md", "N")]
          ∧ strToLower (extname (baseName "font.ttf")) ∈ ([".ttf"] : List String).map strToLower)
    ∧ filteredCopy [("font.ttf", "F"), ("readme.txt", "R"), ("notes.md", "N")] [".ttf"]
        = [("font.ttf", "F")] := by
  have h := extension_filtered_copy ⟨[], none, 0⟩ "/fonts"
    [("font.ttf", "F"), ("readme.txt", "R"), ("notes.md", "N")] [".ttf"] "R" "S"
    (by decide) (by decide)
  exact ⟨by decide, by decide, h.1, h.2 ("font.ttf", "F"), by decide⟩

/-! ## Batch driver (`BatchProcessor`, part_000 lines 256–477) -/

/-- Embedding of the `BatchResult` record (part_000 lines 106–111). -/
structure BatchResult where
  success : Bool
  inputFile : String
  outputFile : String
  errorMsg : Option String
deriving DecidableEq

/-- The outcome of running one job's steps 1–6 (preparation, resolution,
transform, tool invocation, commit). A failing job carries its error message
together with whatever subtitle/output paths had already been resolved before
the failure, so the embedding can show they are dropped. -/
inductive JobOutcome where
  | ok (inputFile outputFile : String)
  | failed (message resolvedInput resolvedOutput : String)
deriving DecidableEq

/-- Embedding of `processOne`'s result construction (lines 348–361): a
successful job reports its subtitle and output paths; the `catch` block builds
the failed result with empty `inputFile`/`outputFile` and only the message. -/
def processOne (j : JobOutcome) : BatchResult :=
  match j with
  | JobOutcome.ok i o => ⟨true, i, o, none⟩
  | JobOutcome.failed e _ _ => ⟨false, "", "", some e⟩

/-- Whether a job's outcome is recorded as a failure. -/
def isFailedJob (j : JobOutcome) : Bool :=
  !(processOne j).success

/-- Embedding of the `process` loop (lines 430–441): jobs are attempted in
order, each result is pushed, and the loop `break`s right after the first
failed result. -/
def runJobs : List JobOutcome → List BatchResult
  | [] => []
  | j :: rest =>
    let r := processOne j
    if r.success then r :: runJobs rest else [r]

/-- Observable steps of one `process` call, in order. -/
inductive Event where
  | jobResult (r : BatchResult)
  | summary (successCount failCount notAttempted : Nat)
  | cleanupCache
  | raised (message : String)
  | returned (results : List BatchResult)
deriving DecidableEq

/-- Embedding of `process` (lines 412–464): run the loop, write the log
summary (`writeLogSummary`, lines 386–403, reporting `total - success - fail`
as not-executed), then — in the `finally` — clean the cache, and finally either
raise the aggregate error (line 457) or deliver the results to the caller. -/
def process (jobs : List JobOutcome) : List Event :=
  let results := runJobs jobs
  let successCount := results.countP (fun r => r.success)
  let failCount := results.countP (fun r => !r.success)
  results.map Event.jobResult
    ++ [Event.summary successCount failCount (jobs.length - successCount - failCount)]
    ++ [Event.cleanupCache]
    ++ (if failCount > 0 then
          [Event.raised ("批处理失败: " ++ toString failCount ++ " 个任务失败")]
        else
          [Event.returned results])

/-- Embedding of `TempDirCache.cleanup` (temp-dir-cache.ts lines 116–127):
request recursive removal of the root temp dir when one exists (the host's
removal outcome `hostRemoveOk` is swallowed either way), then reset the map,
the root and the counter. Returns the removal request and the new state. -/
def cleanup (st : CacheState) (_hostRemoveOk : Bool) : Option String × CacheState :=
  (st.rootTempDir, ⟨[], none, 0⟩)

/-- C2: Fail-fast. The result sequence is exactly one result per attempted job
in submission order, cut right after the first failure (jobs past it are never
attempted and have no entry); every result before the last is a success; when
some job fails the sequence ends in that failed result; when none fails every
job is attempted and succeeds; and the log summary reports
not-attempted = total − successes − failures. -/
theorem batch_fail_fast (jobs : List JobOutcome) :
    runJobs jobs = (jobs.take (jobs.findIdx isFailedJob + 1)).map processOne
    ∧ ((∃ j ∈ jobs, isFailedJob j = true) →
        ∃ pre r, runJobs jobs = pre ++ [r]
          ∧ (∀ x ∈ pre, x.success = true) ∧ r.success = false)
    ∧ ((∀ j ∈ jobs, isFailedJob j = false) →
        runJobs jobs = jobs.map processOne ∧ ∀ r ∈ runJobs jobs, r.success = true)
    ∧ Event.summary ((runJobs jobs).countP (fun r => r.success))
        ((runJobs jobs).countP (fun r => !r.success))
        (jobs.length - (runJobs jobs).countP (fun r => r.success)
          - (runJobs jobs).countP (fun r => !r.success)) ∈ process jobs := by
  refine ⟨?_, ?_, ?_, ?_⟩
  · induction jobs with
    | nil => rfl
    | cons j rest ih =>
      by_cases h : (processOne j).success = true
      · have hnf : isFailedJob j = false := by simp [isFailedJob, h]
        simp only [runJobs, h, if_pos, List.findIdx_cons, hnf, cond_false]
        rw [ih]
        rfl
      · have hf : isFailedJob j = true := by simp [isFailedJob, h]
        have h' : (processOne j).success = false := by
          cases hs : (processOne j).success
          · rfl
          · exact absurd hs h
        simp [runJobs, h', List.findIdx_cons, hf]
  · induction jobs with
    | nil => rintro ⟨j, hj, _⟩; cases hj
    | cons j rest ih =>
      intro hex
      by_cases h : (processOne j).success = true
      · have hnf : isFailedJob j = false := by simp [isFailedJob, h]
        have hex' : ∃ x ∈ rest, isFailedJob x = true := by
          rcases hex with ⟨x, hx, hfx⟩
          rcases List.mem_cons.mp hx with rfl | hx'
          · exact absurd hfx (by simp [hnf])
          · exact ⟨x, hx', hfx⟩
        rcases ih hex' with ⟨pre, r, heq, hpre, hr⟩
        refine ⟨processOne j :: pre, r, ?_, ?_, hr⟩
        · simp [runJobs, h, heq]
        · intro x hx
          rcases List.mem_cons.mp hx with rfl | hx'
          · exact h
          · exact hpre x hx'
      · have h' : (processOne j).success = false := by
          cases hs : (processOne j).success
          · rfl
          · exact absurd hs h
        exact ⟨[], processOne j, by simp [runJobs, h'], by simp, h'⟩
  · induction jobs with
    | nil => intro _; exact ⟨rfl, by simp [runJobs]⟩
    | cons j rest ih =>
      intro hall
      have hj : isFailedJob j = false := hall j (List.mem_cons_self j rest)
      have h : (processOne j).success = true := by
        simpa [isFailedJob] using hj
      have ihr := ih (fun x hx => hall x (List.mem_cons_of_mem j hx))
      constructor
      · simp [runJobs, h, ihr.1]
      · intro r hr
        rw [show runJobs (j :: rest) = processOne j :: runJobs rest from by simp [runJobs, h]] at hr
        rcases List.mem_cons.mp hr with rfl | hr'
        · exact h
        · exact ihr.2 r hr'
  · unfold process
    simp

/-- Witness for C2: the spec's 3-job scenario — job 1 succeeds, job 2 fails,
job 3 is never attempted: exactly two results, the trailing one failed. -/
theorem batch_fail_fast_witness :
    (∃ j ∈ [JobOutcome.ok "in1" "out1",
            JobOutcome.failed "glob 匹配到多个文件" "" "",
            JobOutcome.ok "in3" "out3"], isFailedJob j = true)
    ∧ (∃ pre r,
        runJobs [JobOutcome.ok "in1" "out1",
                 JobOutcome.failed "glob 匹配到多个文件" "" "",
                 JobOutcome.ok "in3" "out3"] = pre ++ [r]
          ∧ (∀ x ∈ pre, x.success = true) ∧ r.success = false)
    ∧ runJobs [JobOutcome.ok "in1" "out1",
               JobOutcome.failed "glob 匹配到多个文件" "" "",
               JobOutcome.ok "in3" "out3"]
        = [⟨true, "in1", "out1", none⟩, ⟨false, "", "", some "glob 匹配到多个文件"⟩] :=
  ⟨by decide,
   (batch_fail_fast [JobOutcome.ok "in1" "out1",
      JobOutcome.failed "glob 匹配到多个文件" "" "",
      JobOutcome.ok "in3" "out3"]).2.1 (by decide),
   by decide⟩

/-- C10: a failed job's recorded result always has empty `inputFile` and
`outputFile` — the paths resolved before the failure are dropped; only the
flag and the message carry information. Conversely only failed outcomes
produce non-success results. -/
theorem failed_result_empty_paths :
    (∀ e ri ro, processOne (JobOutcome.failed e ri ro)
        = { success := false, inputFile := "", outputFile := "", errorMsg := some e })
    ∧ (∀ j, (processOne j).success = false →
        (processOne j).inputFile = "" ∧ (processOne j).outputFile = "") := by
  constructor
  · intro e ri ro
    rfl
  · intro j h
    cases j with
    | ok i o => exact absurd h (by simp [processOne])
    | failed e ri ro => exact ⟨rfl, rfl⟩

/-- Witness for C10: a job that failed after resolving `sub.ass` and
`out.ass` reports neither. -/
theorem failed_result_empty_paths_witness :
    (processOne (JobOutcome.failed "boom" "sub.ass" "out.ass")).success = false
    ∧ (processOne (JobOutcome.failed "boom" "sub.ass" "out.ass")).inputFile = ""
    ∧ (processOne (JobOutcome.failed "boom" "sub.ass" "out.ass")).outputFile = "" :=
  ⟨by decide,
   (failed_result_empty_paths.2 (JobOutcome.failed "boom" "sub.ass" "out.ass") (by decide)).1,
   (failed_result_empty_paths.2 (JobOutcome.failed "boom" "sub.ass" "out.ass") (by decide)).2⟩

/-- C6 counterexample: one job failing with message `boom`. The trace shows
the aggregate error is raised (after result, summary and cleanup) with message
`批处理失败: 1 个任务失败`, which does not contain the first failure's message
`boom`; and no `returned` event occurs, so the caller gets no result sequence
on the failing path. -/
theorem batch_error_message_counterexample :
    process [JobOutcome.failed "boom" "sub.ass" "out.ass"]
      = [Event.jobResult ⟨false, "", "", some "boom"⟩,
         Event.summary 0 1 0,
         Event.cleanupCache,
         Event.raised "批处理失败: 1 个任务失败"]
    ∧ ¬ strContains "批处理失败: 1 个任务失败" "boom" := by
  refine ⟨by decide, by decide⟩

/-- C6 (amended): whenever at least one job fails, `process` raises the
aggregate error only after the per-job result sequence, the log summary and
the cache cleanup; the aggregate error's message reports the number of failed
jobs (`批处理失败: N 个任务失败`), not the first failure's message, and the
result sequence is not delivered to the caller on this path — per-job error
messages live only in the recorded failed results and the log. -/
theorem batch_failure_surfacing (jobs : List JobOutcome)
    (hfail : 0 < (runJobs jobs).countP (fun r => !r.success)) :
    process jobs
      = (runJobs jobs).map Event.jobResult
        ++ [Event.summary ((runJobs jobs).countP (fun r => r.success))
              ((runJobs jobs).countP (fun r => !r.success))
              (jobs.length - (runJobs jobs).countP (fun r => r.success)
                - (runJobs jobs).countP (fun r => !r.success))]
        ++ [Event.cleanupCache]
        ++ [Event.raised ("批处理失败: "
              ++ toString ((runJobs jobs).countP (fun r => !r.success)) ++ " 个任务失败")] := by
  unfold process
  simp [hfail]

/-- Witness for C6 (amended): the single-failing-job batch. -/
theorem batch_failure_surfacing_witness :
    0 < (runJobs [JobOutcome.failed "boom" "sub.ass" "out.ass"]).countP (fun r => !r.success)
    ∧ process [JobOutcome.failed "boom" "sub.ass" "out.ass"]
      = (runJobs [JobOutcome.failed "boom" "sub.ass" "out.ass"]).map Event.jobResult
        ++ [Event.summary
              ((runJobs [JobOutcome.failed "boom" "sub.ass" "out.ass"]).countP
                (fun r => r.success))
              ((runJobs [JobOutcome.failed "boom" "sub.ass" "out.ass"]).countP
                (fun r => !r.success))
              ([JobOutcome.failed "boom" "sub.ass" "out.ass"].length
                - (runJobs [JobOutcome.failed "boom" "sub.ass" "out.ass"]).countP
                    (fun r => r.success)
                - (runJobs [JobOutcome.failed "boom" "sub.ass" "out.ass"]).countP
                    (fun r => !r.success))]
        ++ [Event.cleanupCache]
        ++ [Event.raised ("批处理失败: "
              ++ toString ((runJobs [JobOutcome.failed "boom" "sub.ass" "out.ass"]).countP
                  (fun r => !r.success)) ++ " 个任务失败")] :=
  ⟨by decide, batch_failure_surfacing [JobOutcome.failed "boom" "sub.ass" "out.ass"] (by decide)⟩

/-- C7: Cleanup guarantee. On every path of `process` — aggregate error raised
or results returned — cache cleanup runs as the final step before the outcome
reaches the caller; and `cleanup` itself requests recursive removal of the
root temp dir (when one exists) and resets the cache state to
empty/uninitialized regardless of whether the host removal succeeded, so the
instance can be reused. -/
theorem cleanup_guarantee (jobs : List JobOutcome) (st : CacheState) (hostRemoveOk : Bool) :
    (∃ outcome,
        process jobs
          = (runJobs jobs).map Event.jobResult
            ++ [Event.summary ((runJobs jobs).countP (fun r => r.success))
                  ((runJobs jobs).countP (fun r => !r.success))
                  (jobs.length - (runJobs jobs).countP (fun r => r.success)
                    - (runJobs jobs).countP (fun r => !r.success))]
            ++ [Event.cleanupCache]
            ++ [outcome]
          ∧ (outcome = Event.raised ("批处理失败: "
                ++ toString ((runJobs jobs).countP (fun r => !r.success)) ++ " 个任务失败")
            ∨ outcome = Event.returned (runJobs jobs)))
    ∧ cleanup st hostRemoveOk = (st.rootTempDir, ⟨[], none, 0⟩) := by
  constructor
  · by_cases h : 0 < (runJobs jobs).countP (fun r => !r.success)
    · refine ⟨Event.raised ("批处理失败: "
          ++ toString ((runJobs jobs).countP (fun r => !r.success)) ++ " 个任务失败"),
        ?_, Or.inl rfl⟩
      unfold process
      simp [h]
    · refine ⟨Event.returned (runJobs jobs), ?_, Or.inr rfl⟩
      unfold process
      simp [h]
  · rfl

end AssProc
